import Mathlib

/-!
Verification of the waqedi knowledge-ingestion and retrieval platform.

Shallow embedding of the Python sources into Lean 4. Each definition is
translated from a named function of the repository; machine floats are
modelled as exact rationals, Python datetimes as natural-number timestamps,
Python exceptions as `Except` results, and mutation as functional update.
Text processed character by character (regexes, normalization) is modelled
as `List Char`; Python `len` on strings counts code points, which matches
`List.length` on `List Char`.
-/

namespace Waqedi

/-! ## Ingestion domain
Embedding of
`services/ingestion-service/src/ingestion_service/domain/models.py`. -/

/-- Document lifecycle states, from `class DocumentStatus`. -/
inductive DocumentStatus
  | UPLOADED
  | VALIDATED
  | QUEUED
  | PROCESSING
  | PROCESSED
  | FAILED
  | ARCHIVED
  | REJECTED
  | DELETED
deriving DecidableEq, Repr

open DocumentStatus

/-- The `ALLOWED_TRANSITIONS` table (sets rendered as lists). -/
def ALLOWED_TRANSITIONS : DocumentStatus → List DocumentStatus
  | UPLOADED => [VALIDATED, REJECTED]
  | VALIDATED => [QUEUED]
  | QUEUED => [PROCESSING]
  | PROCESSING => [PROCESSED, FAILED]
  | PROCESSED => [ARCHIVED, DELETED]
  | FAILED => [QUEUED]
  | ARCHIVED => [DELETED]
  | REJECTED => []
  | DELETED => []

/-- The exceptions raised by `Document.transition_to`:
`IllegalStateTransition` and `LegalHoldViolation`. -/
inductive TransitionError
  | illegalStateTransition (fromStatus toStatus : DocumentStatus)
  | legalHoldViolation (documentId : String)
deriving DecidableEq, Repr

/-- The `Document` dataclass. Fields not read or written by the claims
under verification (ownership, storage and classification metadata,
checksum) are elided; timestamps are natural numbers. -/
structure Document where
  id : String
  tenant_id : String
  content_type : String
  size_bytes : Nat
  status : DocumentStatus
  legal_hold : Bool
  uploaded_at : Option Nat
  validated_at : Option Nat
  processed_at : Option Nat
  archived_at : Option Nat
  deleted_at : Option Nat
deriving DecidableEq, Repr

/-- `Document.can_transition_to`. -/
def canTransitionTo (d : Document) (newStatus : DocumentStatus) : Bool :=
  (ALLOWED_TRANSITIONS d.status).contains newStatus

/-- `Document.transition_to`. The Python method first raises
`IllegalStateTransition` when the transition is not allowed, then raises
`LegalHoldViolation` when deleting a held document, and only then mutates
`self`: it sets `status` and the timestamp matching the new status, both
inside the same call (`now` stands for `datetime.utcnow()`). Raising is
modelled as returning `.error` with the document untouched. -/
def transitionTo (d : Document) (newStatus : DocumentStatus) (now : Nat) :
    Except TransitionError Document :=
  if ¬ canTransitionTo d newStatus then
    .error (.illegalStateTransition d.status newStatus)
  else if newStatus = DELETED ∧ d.legal_hold then
    .error (.legalHoldViolation d.id)
  else
    .ok { d with
      status := newStatus
      validated_at := if newStatus = VALIDATED then some now else d.validated_at
      processed_at := if newStatus = PROCESSED then some now else d.processed_at
      archived_at := if newStatus = ARCHIVED then some now else d.archived_at
      deleted_at := if newStatus = DELETED then some now else d.deleted_at }

/-- The `ALLOWED_MIME_TYPES` dict: MIME type to size limit in MB. -/
def ALLOWED_MIME_TYPES : List (String × Nat) :=
  [("application/pdf", 100),
   ("image/png", 50),
   ("image/jpeg", 50),
   ("audio/mpeg", 500),
   ("audio/wav", 500),
   ("video/mp4", 2048)]

/-- `is_allowed_content_type`. -/
def is_allowed_content_type (content_type : String) : Bool :=
  (ALLOWED_MIME_TYPES.lookup content_type).isSome

/-- `get_max_size_bytes`: `ALLOWED_MIME_TYPES.get(content_type, 100)`
megabytes converted to bytes. -/
def get_max_size_bytes (content_type : String) : Nat :=
  ((ALLOWED_MIME_TYPES.lookup content_type).getD 100) * 1024 * 1024

/-! ## Upload service
Embedding of
`services/ingestion-service/src/ingestion_service/services/upload.py`. -/

/-- The `UploadError` hierarchy of `upload.py` (the subclasses carry the
constructor arguments shown in the source). -/
inductive UploadError
  | unsupportedMediaType (content_type : String)
  | fileTooLarge (size_bytes max_bytes : Nat)
  | quotaExceeded (used limit : Nat)
deriving DecidableEq, Repr

/-- An object written to blob storage by `storage.put_object`. -/
structure StoredObject where
  key : String
  size : Nat
deriving DecidableEq, Repr

/-- An event published on the bus; the upload path publishes
`document.uploaded` events. -/
structure PublishedEvent where
  event_type : String
  document_id : String
  tenant_id : String
deriving DecidableEq, Repr

/-- Observable side-effect state of the ingestion service: the blob
store, the document rows, and the published events. -/
structure IngestState where
  objects : List StoredObject
  documents : List Document
  events : List PublishedEvent
deriving DecidableEq, Repr

/-- `UploadService.upload`. Validation happens first: an unsupported
content type raises `UnsupportedMediaType`, an oversized payload raises
`FileTooLarge`; the blob write, the document row and the
`document.uploaded` event all happen after both checks. The generated
document id (`generate_document_id`, time plus randomness) and the clock
are passed as parameters; the file body is a byte list whose length is
`len(file_data)`. The returned state is unchanged on every raise. -/
def upload (st : IngestState) (tenant_id user_id filename content_type : String)
    (file_data : List (Fin 256)) (document_id storage_key : String) (now : Nat) :
    IngestState × Except UploadError Document :=
  if ¬ is_allowed_content_type content_type then
    (st, .error (.unsupportedMediaType content_type))
  else if file_data.length > get_max_size_bytes content_type then
    (st, .error (.fileTooLarge file_data.length (get_max_size_bytes content_type)))
  else
    let doc : Document :=
      { id := document_id
        tenant_id := tenant_id
        content_type := content_type
        size_bytes := file_data.length
        status := UPLOADED
        legal_hold := false
        uploaded_at := some now
        validated_at := none
        processed_at := none
        archived_at := none
        deleted_at := none }
    ({ objects := st.objects ++ [{ key := storage_key, size := file_data.length }]
       documents := st.documents ++ [doc]
       events := st.events ++
         [{ event_type := "document.uploaded"
            document_id := document_id
            tenant_id := tenant_id }] },
     .ok doc)

/-! ## Qdrant vector store model
Embedding of `services/retrieval-service/app/qdrant_client.py` and of the
filter construction in `services/rag-service/app/modules/retrieval.py`.
A stored point carries a payload of string key-value pairs; the Qdrant
`must` filter semantics (every condition holds on the payload) is the
documented contract of the external store. Similarity ordering is
abstracted: the model returns matching points in store order, which is
irrelevant to the membership properties proved below. -/

/-- A `models.FieldCondition` with a `MatchValue`. -/
structure FieldCondition where
  key : String
  value : String
deriving DecidableEq, Repr

/-- A point stored in the shared collection. -/
structure QdrantPoint where
  id : String
  payload : List (String × String)
  score : ℚ
deriving DecidableEq, Repr

/-- Payload dictionary access (`payload.get(key)`); payloads are built
with pairwise-distinct keys, so first-match lookup is dictionary access. -/
def payloadGet (p : QdrantPoint) (key : String) : Option String :=
  p.payload.lookup key

/-- A point satisfies a `models.Filter(must=conds)` when every field
condition matches its payload. -/
def matchesConditions (conds : List FieldCondition) (p : QdrantPoint) : Bool :=
  conds.all fun c => payloadGet p c.key = some c.value

/-- The vector-store search contract: return stored points that satisfy
the `must` filter and the score threshold, at most `limit` many. -/
def qdrantSearch (points : List QdrantPoint) (conds : List FieldCondition)
    (minScore : ℚ) (limit : Nat) : List QdrantPoint :=
  ((points.filter fun p =>
      matchesConditions conds p && decide (minScore ≤ p.score)).take limit)

/-- Filter construction of `HybridRetriever.retrieve` (rag-service).
The list starts with the tenant condition; a language condition is added
when `enriched.language` is truthy (a nonempty string), and a document
condition when `query.filters.get("document_id")` is truthy. -/
def retrieveMustConditions (tenant_id : String) (language : String)
    (documentFilter : Option String) : List FieldCondition :=
  [{ key := "tenant_id", value := tenant_id }]
    ++ (if language ≠ "" then [{ key := "language", value := language }] else [])
    ++ (match documentFilter with
        | some d => if d ≠ "" then [{ key := "document_id", value := d }] else []
        | none => [])

/-- Filter construction of `QdrantService.search` (retrieval-service):
the tenant condition always, a language condition when `language` is a
truthy optional string. -/
def searchMustConditions (tenant_id : String) (language : Option String) :
    List FieldCondition :=
  [{ key := "tenant_id", value := tenant_id }]
    ++ (match language with
        | some l => if l ≠ "" then [{ key := "language", value := l }] else []
        | none => [])

/-- A chunk retrieved from the vector store (`RetrievedChunk` dataclass of
the rag-service; the `metadata` dict is elided). -/
structure RetrievedChunk where
  chunk_id : String
  document_id : String
  text : String
  language : String
  score : ℚ
deriving DecidableEq, Repr

/-- Conversion of a search hit into a `RetrievedChunk`, as in the result
loop of `HybridRetriever.retrieve` (`payload.get` with defaults). -/
def toRetrievedChunk (p : QdrantPoint) : RetrievedChunk :=
  { chunk_id := (payloadGet p "chunk_id").getD ""
    document_id := (payloadGet p "document_id").getD ""
    text := (payloadGet p "text").getD ""
    language := (payloadGet p "language").getD "en"
    score := p.score }

/-- `HybridRetriever.retrieve` over the store model: search with the
constructed filter, then convert hits. -/
def hybridRetrieve (points : List QdrantPoint) (tenant_id : String)
    (language : String) (documentFilter : Option String)
    (minScore : ℚ) (limit : Nat) : List RetrievedChunk :=
  (qdrantSearch points (retrieveMustConditions tenant_id language documentFilter)
      minScore limit).map toRetrievedChunk

/-- Input chunk dict of `QdrantService.index_chunks`
(`{"chunk_id", "text", "language"}`, optional page number). -/
structure ChunkIn where
  chunk_id : String
  text : String
  language : String
deriving DecidableEq, Repr

/-- Point id composition inside `QdrantService.index_chunks`:
`f"{tenant_id}_{document_id}_{chunk[chunk_id]}"` (string interpolation of
the three components separated by underscores). -/
def composePointId (tenant_id document_id chunk_id : String) : String :=
  tenant_id ++ "_" ++ document_id ++ "_" ++ chunk_id

/-- `QdrantService.index_chunks`: one point per chunk, id composed by
`composePointId`, payload replicating tenant, document, chunk, text and
language. The embedding vector comes from the external embedding service
and does not affect ids or payloads, so it is not modelled. -/
def indexChunks (tenant_id document_id : String) (chunks : List ChunkIn) :
    List QdrantPoint :=
  chunks.map fun c =>
    { id := composePointId tenant_id document_id c.chunk_id
      payload := [("tenant_id", tenant_id),
                  ("document_id", document_id),
                  ("chunk_id", c.chunk_id),
                  ("text", c.text),
                  ("language", c.language)]
      score := 0 }

/-! ## Answer generation
Embedding of `services/rag-service/app/modules/generation.py` and of the
zero-hit branch of `services/rag-service/app/engine.py`. Text is handled
as `List Char`; floats are exact rationals. -/

/-- Python whitespace characters as tested by `str.strip` and by the
regex class `\s` (restricted to the ASCII whitespace characters; none of
the claims hinges on the exotic Unicode spaces). -/
def pySpace (c : Char) : Bool :=
  c = ' ' ∨ c = '\t' ∨ c = '\n' ∨ c = '\r' ∨ c = '\x0b' ∨ c = '\x0c'

/-- Python `str.strip()`: drop leading and trailing whitespace. -/
def pyStrip (cs : List Char) : List Char :=
  ((cs.dropWhile pySpace).reverse.dropWhile pySpace).reverse

/-- Python `str.lower()` restricted to ASCII letters; the refusal
phrases of the source are ASCII and Arabic, both unaffected by the full
Unicode case mapping beyond this. -/
def pyLower (cs : List Char) : List Char :=
  cs.map fun c =>
    if 'A' ≤ c ∧ c ≤ 'Z' then Char.ofNat (c.toNat + 32) else c

/-- Helper for the regex `\[([^\]]+)\]`: split a character list at the
first closing bracket, returning the characters before it and the
remainder after it. -/
def splitRB : List Char → Option (List Char × List Char)
  | [] => none
  | c :: cs =>
    if c = ']' then some ([], cs)
    else
      match splitRB cs with
      | some (pre, post) => some (c :: pre, post)
      | none => none

theorem splitRB_length :
    ∀ (cs pre post : List Char), splitRB cs = some (pre, post) →
      pre.length + post.length + 1 = cs.length := by
  intro cs
  induction cs with
  | nil => intro pre post h; simp [splitRB] at h
  | cons c cs ih =>
    intro pre post h
    by_cases hc : c = ']'
    · simp [splitRB, hc] at h
      simp [← h.1, ← h.2]
    · simp only [splitRB, if_neg hc] at h
      cases hsp : splitRB cs with
      | none => rw [hsp] at h; simp at h
      | some pp =>
        rw [hsp] at h
        simp at h
        obtain ⟨h1, h2⟩ := h
        have := ih pp.1 pp.2 (by rw [hsp])
        simp [← h1, ← h2]
        omega

/-- `re.findall` for the pattern `\[([^\]]+)\]` of `_extract_citations`:
scan left to right; at an opening bracket, the greedy class `[^\]]+`
matches everything up to the next closing bracket, which must exist and
enclose at least one character; scanning resumes after the closing
bracket, and on a failed match the scanner advances one position. The
scan consumes at least one character per step, so running it with the
input length as fuel (as `bracketTokens` does) never exhausts the
fuel. -/
def bracketTokensGo : Nat → List Char → List (List Char)
  | _, [] => []
  | 0, _ :: _ => []
  | fuel + 1, c :: rest =>
    if c = '[' then
      match splitRB rest with
      | some (content, rem) =>
        if content.isEmpty then bracketTokensGo fuel rest
        else content :: bracketTokensGo fuel rem
      | none => bracketTokensGo fuel rest
    else bracketTokensGo fuel rest

/-- The bracketed tokens of an answer, in order of appearance. -/
def bracketTokens (l : List Char) : List (List Char) :=
  bracketTokensGo l.length l

/-- The `RankedChunk` dataclass of the rag-service. -/
structure RankedChunk where
  chunk_id : List Char
  document_id : List Char
  text : List Char
  language : List Char
  relevance_score : ℚ
  diversity_score : ℚ
  final_score : ℚ
  rank : Nat
deriving DecidableEq, Repr

/-- The `Citation` dataclass of the rag-service. -/
structure Citation where
  chunk_id : List Char
  document_id : List Char
  text_excerpt : List Char
deriving DecidableEq, Repr

/-- Lookup in `chunk_map = {c.chunk_id: c for c in chunks}`: a Python
dict comprehension keeps the last chunk for a duplicated id, hence the
search over the reversed list. -/
def chunkMapFind (chunks : List RankedChunk) (cid : List Char) :
    Option RankedChunk :=
  chunks.reverse.find? fun c => c.chunk_id = cid

/-- The excerpt built for a citation:
`chunk.text[:100] + "..."` when the text is longer than 100 characters,
else the whole text. -/
def citationExcerpt (text : List Char) : List Char :=
  if text.length > 100 then text.take 100 ++ ('.' :: '.' :: '.' :: []) else text

/-- Loop body of `_extract_citations`: walk the bracketed tokens in
order, strip each, keep it when the stripped id is in the chunk map and
unseen, and record it as seen. -/
def extractCitationsGo (chunks : List RankedChunk) :
    List (List Char) → List (List Char) → List Citation
  | [], _ => []
  | m :: ms, seen =>
    let cid := pyStrip m
    match chunkMapFind chunks cid with
    | some chunk =>
      if seen.contains cid then extractCitationsGo chunks ms seen
      else
        { chunk_id := cid
          document_id := chunk.document_id
          text_excerpt := citationExcerpt chunk.text } ::
          extractCitationsGo chunks ms (cid :: seen)
    | none => extractCitationsGo chunks ms seen

/-- `Generator._extract_citations`. -/
def extractCitations (answer : List Char) (chunks : List RankedChunk) :
    List Citation :=
  extractCitationsGo chunks (bracketTokens answer) []

/-- Order-preserving first-occurrence deduplication, used to state the
characterisation of the extraction loop. -/
def keepFirsts (seen : List (List Char)) : List (List Char) → List (List Char)
  | [] => []
  | a :: l =>
    if seen.contains a then keepFirsts seen l
    else a :: keepFirsts (a :: seen) l

/-- The fixed bilingual refusal phrase list of `_calculate_confidence`. -/
def refusalPhrases : List (List Char) :=
  ["cannot find".data,
   "not available".data,
   "no information".data,
   "لا أجد".data,
   "غير متاحة".data]

/-- The refusal test of `_calculate_confidence`:
`any(p in answer.lower() for p in refusal_patterns)`. -/
def isRefusal (answer : List Char) : Bool :=
  refusalPhrases.any fun p => decide (p <:+: pyLower answer)

/-- Round a rational to the nearest integer, ties to even: the rounding
Python `round` performs (on these short decimal values the binary float
and the exact rational agree). -/
def roundHalfEven (x : ℚ) : ℤ :=
  let f := ⌊x⌋
  let r := x - f
  if r < 1/2 then f
  else if 1/2 < r then f + 1
  else if f % 2 = 0 then f else f + 1

/-- Python `round(x, 2)`. -/
def pyRound2 (x : ℚ) : ℚ :=
  (roundHalfEven (x * 100) : ℚ) / 100

/-- `Generator._calculate_confidence`: no citations give 0.3; then the
citation ratio over `max(len(context.chunks), 1)` is computed, a refusal
phrase gives 0.9, and otherwise `min(ratio * 0.8 + 0.2, 0.95)` rounded
to two decimals is returned. -/
def calculateConfidence (answer : List Char) (citations : List Citation)
    (contextChunks : List RankedChunk) : ℚ :=
  if citations.isEmpty then 3/10
  else
    let citeCoverage : ℚ :=
      (citations.length : ℚ) / (max contextChunks.length 1 : ℚ)
    if isRefusal answer then 9/10
    else pyRound2 (min (citeCoverage * (8/10) + 2/10) (95/100))

/-- The `RAGResponse` dataclass (answer type carried as its string
value; the metadata dict is elided). -/
structure RAGResponse where
  answer : String
  citations : List Citation
  confidence : ℚ
  answer_type : String
  language : String
deriving DecidableEq, Repr

/-- `RAGEngine._get_no_results_message`. -/
def getNoResultsMessage (language : String) : String :=
  if language = "ar" then
    "لم أتمكن من العثور على معلومات ذات صلة في الوثائق المتاحة."
  else
    "I could not find relevant information in the available documents."

/-- The retrieval branch of `RAGEngine.query`: when retrieval returns no
chunks the engine returns the no-results response immediately; context
assembly, prompt building and the LLM call happen only on the other
branch, modelled by the `generate` continuation parameter. -/
def ragEngineQuery (chunks : List RetrievedChunk) (language : String)
    (generate : List RetrievedChunk → RAGResponse) : RAGResponse :=
  if chunks.isEmpty then
    { answer := getNoResultsMessage language
      citations := []
      confidence := 9/10
      answer_type := "direct"
      language := language }
  else generate chunks

/-! ## Semantic chunking
Embedding of `services/chunking-service/app/chunker.py`
(`TextChunker._semantic_chunk` and its helpers). The service settings
give `min_chunk_size = 100`, `default_chunk_size = 512`,
`overlap_tokens = 50`; the strategy parameters are passed explicitly. -/

/-- `TextChunker._estimate_tokens`: `len(text) // 4`. -/
def estimateTokens (cs : List Char) : Nat := cs.length / 4

/-- Sentence-final punctuation of the split pattern `(?<=[.!?])\s+`. -/
def isSentEnd (c : Char) : Bool := c = '.' ∨ c = '!' ∨ c = '?'

/-- Scanner for `re.split(r'(?<=[.!?])\s+', text)`: a maximal whitespace
run whose preceding character (in the original text, which is the last
character accumulated into the current part) is sentence-final
punctuation separates two parts. `acc` holds the current part
reversed. -/
def splitSentencesGo : Nat → List Char → List Char → List (List Char)
  | _, acc, [] => [acc.reverse]
  | 0, acc, _ :: _ => [acc.reverse]
  | fuel + 1, acc, c :: rest =>
    if pySpace c && (match acc with
                     | p :: _ => isSentEnd p
                     | [] => false) then
      acc.reverse :: splitSentencesGo fuel [] (rest.dropWhile fun x => pySpace x)
    else splitSentencesGo fuel (c :: acc) rest

/-- The sentence split of `_semantic_chunk`; the scanner consumes at
least one character per step, so the input length is adequate fuel. -/
def splitSentences (text : List Char) : List (List Char) :=
  splitSentencesGo text.length [] text

/-- Python `' '.join(parts)`. -/
def joinSpace : List (List Char) → List Char
  | [] => []
  | [p] => p
  | p :: ps => p ++ ' ' :: joinSpace ps

/-- The `ChunkResult` dataclass of the chunking service. -/
structure ChunkResult where
  text : List Char
  token_count : Nat
  page_number : Option Nat
  source_index : Nat
deriving DecidableEq, Repr

/-- Build one `ChunkResult` as the source does. -/
def mkChunkResult (text : List Char) (page : Option Nat) (idx : Nat) :
    ChunkResult :=
  { text := text
    token_count := estimateTokens text
    page_number := page
    source_index := idx }

/-- The overlap loop of `_semantic_chunk`: walk the emitted sentences
backwards, prepending while the accumulated estimate stays within
`overlap`. Returns the kept sentences and their token total. -/
def overlapGo (overlap : Nat) :
    List (List Char) → List (List Char) → Nat → List (List Char) × Nat
  | [], acc, tok => (acc, tok)
  | s :: ss, acc, tok =>
    if tok + estimateTokens s ≤ overlap then
      overlapGo overlap ss (s :: acc) (tok + estimateTokens s)
    else (acc, tok)

/-- Overlap kept when a chunk is emitted (`for s in reversed(current_chunk)`). -/
def overlapSentences (current : List (List Char)) (overlap : Nat) :
    List (List Char) × Nat :=
  overlapGo overlap current.reverse [] 0

/-- The sentence loop of `_semantic_chunk`: when the current tokens plus
the next sentence exceed `chunk_size` and the current chunk is nonempty,
the current chunk is emitted and replaced by its overlap tail; in every
iteration the sentence is then appended. Returns the emitted chunks and
the final `current_chunk`. -/
def semanticLoop (chunk_size overlap : Nat) (page : Option Nat) (idx : Nat) :
    List (List Char) → List (List Char) → Nat →
    List ChunkResult × List (List Char)
  | [], current, _ => ([], current)
  | s :: ss, current, curTok =>
    let sTok := estimateTokens s
    if curTok + sTok > chunk_size && !current.isEmpty then
      let emitted := mkChunkResult (joinSpace current) page idx
      let ov := overlapSentences current overlap
      let rest := semanticLoop chunk_size overlap page idx ss (ov.1 ++ [s]) (ov.2 + sTok)
      (emitted :: rest.1, rest.2)
    else
      semanticLoop chunk_size overlap page idx ss (current ++ [s]) (curTok + sTok)

/-- `TextChunker._semantic_chunk`: split into sentences, run the loop,
then emit the final chunk only when its estimated tokens reach
`min_size` (`self.min_size`, default 100). -/
def semanticChunk (min_size : Nat) (text : List Char) (chunk_size overlap : Nat)
    (page : Option Nat) (idx : Nat) : List ChunkResult :=
  let sentences := splitSentences text
  let r := semanticLoop chunk_size overlap page idx sentences [] 0
  r.1 ++
    (if !r.2.isEmpty && decide (estimateTokens (joinSpace r.2) ≥ min_size) then
       [mkChunkResult (joinSpace r.2) page idx]
     else [])

/-! ## Text normalization
Embedding of
`services/language-service/src/language_service/services/normalization.py`
(`TextNormalizer.normalize` and its steps, producing the
`normalized_text` of the returned record; the change log does not affect
the text and is elided). `unicodedata.normalize("NFC", text)` is
modelled by the Unicode canonical decompose-reorder-compose algorithm
restricted to the character repertoire this development touches: the
composition and decomposition table lists exactly the canonical
decompositions of U+0622..U+0626 from UnicodeData.txt (none excluded
from composition) and the combining classes of U+0653..U+0655; every
other character is primitive with combining class 0, which is accurate
for all other characters appearing in this file. -/

/-- Canonical combining class, restricted as documented above
(U+0653 MADDAH ABOVE and U+0654 HAMZA ABOVE have ccc 230,
U+0655 HAMZA BELOW has ccc 220). -/
def ccc (c : Char) : Nat :=
  match c.toNat with
  | 0x0653 => 230
  | 0x0654 => 230
  | 0x0655 => 220
  | _ => 0

/-- Canonical decomposition (restricted table, full decompositions are
already terminal). -/
def canonDecomp (c : Char) : List Char :=
  match c.toNat with
  | 0x0622 => [Char.ofNat 0x0627, Char.ofNat 0x0653]
  | 0x0623 => [Char.ofNat 0x0627, Char.ofNat 0x0654]
  | 0x0624 => [Char.ofNat 0x0648, Char.ofNat 0x0654]
  | 0x0625 => [Char.ofNat 0x0627, Char.ofNat 0x0655]
  | 0x0626 => [Char.ofNat 0x064A, Char.ofNat 0x0654]
  | _ => [c]

/-- Primary composites (the inverse of `canonDecomp`; none of these
pairs is composition-excluded). -/
def canonCompose (a b : Char) : Option Char :=
  match a.toNat, b.toNat with
  | 0x0627, 0x0653 => some (Char.ofNat 0x0622)
  | 0x0627, 0x0654 => some (Char.ofNat 0x0623)
  | 0x0648, 0x0654 => some (Char.ofNat 0x0624)
  | 0x0627, 0x0655 => some (Char.ofNat 0x0625)
  | 0x064A, 0x0654 => some (Char.ofNat 0x0626)
  | _, _ => none

/-- Stable insertion for canonical ordering of combining marks. -/
def insertByCcc (m : Char) : List Char → List Char
  | [] => [m]
  | x :: xs => if ccc m ≤ ccc x then m :: x :: xs else x :: insertByCcc m xs

/-- Stable sort of a run of combining marks by combining class. -/
def sortMarks (l : List Char) : List Char := l.foldr insertByCcc []

/-- Canonical ordering: each maximal run of characters with nonzero
combining class is stably sorted by class. Each step consumes at least
one character, so the input length is adequate fuel. -/
def reorderMarksGo : Nat → List Char → List Char
  | _, [] => []
  | 0, l => l
  | fuel + 1, c :: rest =>
    if ccc c = 0 then c :: reorderMarksGo fuel rest
    else
      sortMarks (c :: rest.takeWhile fun x => ccc x ≠ 0) ++
        reorderMarksGo fuel (rest.dropWhile fun x => ccc x ≠ 0)

/-- Canonical ordering of a whole string. -/
def reorderMarks (l : List Char) : List Char :=
  reorderMarksGo l.length l

/-- Canonical composition inside one starter segment: each following
mark composes with the current starter unless a skipped mark of equal or
higher combining class blocks it (`mx` is the highest skipped class). -/
def composeSegGo (st : Char) (skippedRev : List Char) (mx : Nat) :
    List Char → List Char
  | [] => st :: skippedRev.reverse
  | m :: rest =>
    if mx < ccc m then
      match canonCompose st m with
      | some x => composeSegGo x skippedRev mx rest
      | none => composeSegGo st (m :: skippedRev) (max mx (ccc m)) rest
    else composeSegGo st (m :: skippedRev) (max mx (ccc m)) rest

/-- Canonical composition: split at starters (class 0) and compose each
segment; marks before the first starter stay as they are. Each step
consumes at least one character, so the input length is adequate
fuel. -/
def nfcComposeGo : Nat → List Char → List Char
  | _, [] => []
  | 0, l => l
  | fuel + 1, c :: rest =>
    if ccc c = 0 then
      composeSegGo c [] 0 (rest.takeWhile fun x => ccc x ≠ 0) ++
        nfcComposeGo fuel (rest.dropWhile fun x => ccc x ≠ 0)
    else c :: nfcComposeGo fuel rest

/-- Canonical composition of a whole string. -/
def nfcCompose (l : List Char) : List Char :=
  nfcComposeGo l.length l

/-- `unicodedata.normalize("NFC", text)` under the restriction
documented above. -/
def nfc (l : List Char) : List Char :=
  nfcCompose (reorderMarks ((l.map canonDecomp).flatten))

/-- ASCII lowercase letters (`[a-z]` of the OCR regexes). -/
def isLowerAZ (c : Char) : Bool := 'a' ≤ c ∧ c ≤ 'z'

/-- ASCII digits (`[0-9]` of the OCR regexes). -/
def isDigit09 (c : Char) : Bool := '0' ≤ c ∧ c ≤ '9'

/-- Python regex word characters `\w` (ASCII repertoire). -/
def isWordChar (c : Char) : Bool := c.isAlphanum || c = '_'

/-- First OCR fix, `re.sub(r'\bl\b(?=[0-9])', '1', text)`: replace a
letter l that sits between word boundaries and is followed by a digit.
A boundary after l demands a non-word follower while the lookahead
demands a digit, and digits are word characters, so the pattern is
modelled exactly and never fires. `prev` is the character of the
original text before the scan position. -/
def ocrLTo1Go (prev : Option Char) : List Char → List Char
  | [] => []
  | c :: rest =>
    let boundaryBefore := match prev with
      | none => true
      | some p => !isWordChar p
    let matched := c = 'l' && boundaryBefore &&
      (match rest with
       | next :: _ => !isWordChar next && isDigit09 next
       | [] => false)
    (if matched then '1' else c) :: ocrLTo1Go (some c) rest

/-- Second OCR fix, `re.sub(r'(?<=[a-z])0(?=[a-z])', 'o', text)`: a zero
becomes the letter o when the original neighbours are lowercase
letters (lookaround matches inspect the original text). -/
def ocrZeroToOGo (prev : Option Char) : List Char → List Char
  | [] => []
  | c :: rest =>
    let matched := c = '0' &&
      (match prev with
       | some p => isLowerAZ p
       | none => false) &&
      (match rest with
       | next :: _ => isLowerAZ next
       | [] => false)
    (if matched then 'o' else c) :: ocrZeroToOGo (some c) rest

/-- Third OCR fix, `re.sub('rn', 'm', text)`: left-to-right
non-overlapping replacement. -/
def ocrRnToM : List Char → List Char
  | 'r' :: 'n' :: rest => 'm' :: ocrRnToM rest
  | c :: rest => c :: ocrRnToM rest
  | [] => []

/-- `TextNormalizer._ocr_cleanup`: the three substitutions in source
order. -/
def ocrCleanup (l : List Char) : List Char :=
  ocrRnToM (ocrZeroToOGo none (ocrLTo1Go none l))

/-- `re.sub(r' +', ' ', text)`: collapse runs of spaces by dropping
every space directly followed by another space (the source guards the
substitution behind a `'  ' in text` check that cannot change the
resulting text). -/
def collapseSpaces : List Char → List Char
  | [] => []
  | c :: rest =>
    if c = ' ' && (match rest with
                   | d :: _ => d = ' '
                   | [] => false) then collapseSpaces rest
    else c :: collapseSpaces rest

/-- `text.replace('\r\n', '\n')`. -/
def replCRLF : List Char → List Char
  | '\r' :: '\n' :: rest => '\n' :: replCRLF rest
  | c :: rest => c :: replCRLF rest
  | [] => []

/-- `text.replace('\r', '\n')`. -/
def replCR (l : List Char) : List Char :=
  l.map fun c => if c = '\r' then '\n' else c

/-- Python `text.split('\n')`. -/
def splitLinesGo (acc : List Char) : List Char → List (List Char)
  | [] => [acc.reverse]
  | c :: rest =>
    if c = '\n' then acc.reverse :: splitLinesGo [] rest
    else splitLinesGo (c :: acc) rest

/-- Python `line.rstrip()`. -/
def rstripLine (l : List Char) : List Char :=
  (l.reverse.dropWhile pySpace).reverse

/-- Python `'\n'.join(lines)`. -/
def joinLines : List (List Char) → List Char
  | [] => []
  | [p] => p
  | p :: ps => p ++ '\n' :: joinLines ps

/-- `TextNormalizer._normalize_whitespace`: collapse spaces, normalize
CR/LF, strip trailing whitespace per line. -/
def normalizeWhitespace (l : List Char) : List Char :=
  joinLines ((splitLinesGo [] (replCR (replCRLF (collapseSpaces l)))).map rstripLine)

/-- The alef variants of the Arabic rule `[أإآا]`
(U+0623, U+0625, U+0622, U+0627). -/
def isAlefVariant (c : Char) : Bool :=
  c = Char.ofNat 0x0623 ∨ c = Char.ofNat 0x0625 ∨
    c = Char.ofNat 0x0622 ∨ c = Char.ofNat 0x0627

/-- `TextNormalizer._normalize_arabic` under the `ar` rule set
(`normalize_alef` and `normalize_yeh` are on): alef variants unify to
U+0627, then U+0649 becomes U+064A. -/
def normalizeArabicText (l : List Char) : List Char :=
  (l.map fun c => if isAlefVariant c then Char.ofNat 0x0627 else c).map
    fun c => if c = Char.ofNat 0x0649 then Char.ofNat 0x064A else c

/-- Single-character `str.replace` whose replacement is a string. -/
def replaceLig (lig : Char) (rep : List Char) (l : List Char) : List Char :=
  (l.map fun c => if c = lig then rep else [c]).flatten

/-- `TextNormalizer._normalize_english` under the `en` rule set: the
smart-quote replacement in the source replaces the ASCII double quote by
itself (both literals in the file are the plain `"` character), then the
ligatures U+FB01, U+FB02, U+FB00 expand to fi, fl, ff in order. -/
def normalizeEnglishText (l : List Char) : List Char :=
  let q1 := l.map fun c => if c = '"' then '"' else c
  let q2 := q1.map fun c => if c = '"' then '"' else c
  let g1 := replaceLig (Char.ofNat 0xFB01) ('f' :: 'i' :: []) q2
  let g2 := replaceLig (Char.ofNat 0xFB02) ('f' :: 'l' :: []) g1
  replaceLig (Char.ofNat 0xFB00) ('f' :: 'f' :: []) g2

/-- `TextNormalizer.normalize`, producing the normalized text: Unicode
NFC, OCR cleanup, whitespace normalization, then the language-specific
step for `ar` and `en` (other languages skip step 4). -/
def normalizeText (text : List Char) (language : String) : List Char :=
  let n1 := nfc text
  let n2 := ocrCleanup n1
  let n3 := normalizeWhitespace n2
  if language = "ar" then normalizeArabicText n3
  else if language = "en" then normalizeEnglishText n3
  else n3

/-! ## Verified claims -/

/-- Claim C2: document state-machine soundness. A transition outside
`ALLOWED_TRANSITIONS` fails with `IllegalStateTransition` (the document
is returned unchanged, since the error carries no update); an allowed
transition that is not a legal-hold-blocked deletion succeeds, sets the
status, writes `now` into exactly the timestamp field matching the new
status in the same step, and touches nothing else. -/
theorem c2_transition_state_machine (d : Document) (s : DocumentStatus) (now : Nat) :
    (canTransitionTo d s = false →
        transitionTo d s now = .error (.illegalStateTransition d.status s)) ∧
    (canTransitionTo d s = true →
      ¬(s = DocumentStatus.DELETED ∧ d.legal_hold = true) →
      ∃ d2, transitionTo d s now = .ok d2 ∧
        d2.status = s ∧
        d2.validated_at = (if s = DocumentStatus.VALIDATED then some now else d.validated_at) ∧
        d2.processed_at = (if s = DocumentStatus.PROCESSED then some now else d.processed_at) ∧
        d2.archived_at = (if s = DocumentStatus.ARCHIVED then some now else d.archived_at) ∧
        d2.deleted_at = (if s = DocumentStatus.DELETED then some now else d.deleted_at) ∧
        d2.id = d.id ∧ d2.tenant_id = d.tenant_id ∧ d2.legal_hold = d.legal_hold ∧
        d2.uploaded_at = d.uploaded_at ∧ d2.content_type = d.content_type ∧
        d2.size_bytes = d.size_bytes) := by
  constructor
  · intro h
    simp [transitionTo, h]
  · intro h1 h2
    exact ⟨{ d with
        status := s
        validated_at := if s = DocumentStatus.VALIDATED then some now else d.validated_at
        processed_at := if s = DocumentStatus.PROCESSED then some now else d.processed_at
        archived_at := if s = DocumentStatus.ARCHIVED then some now else d.archived_at
        deleted_at := if s = DocumentStatus.DELETED then some now else d.deleted_at },
      by simp [transitionTo, h1, h2], rfl, rfl, rfl, rfl, rfl, rfl, rfl, rfl, rfl,
      rfl, rfl⟩

/-- Witness for C2 at a concrete input: an UPLOADED document moves to
VALIDATED and gets its validation timestamp. -/
theorem c2_transition_state_machine_witness :
    canTransitionTo
        ⟨"doc1", "t1", "application/pdf", 10, DocumentStatus.UPLOADED, false,
          some 1, none, none, none, none⟩ DocumentStatus.VALIDATED = true ∧
    ∃ d2, transitionTo
        ⟨"doc1", "t1", "application/pdf", 10, DocumentStatus.UPLOADED, false,
          some 1, none, none, none, none⟩ DocumentStatus.VALIDATED 5 = .ok d2 ∧
      d2.status = DocumentStatus.VALIDATED ∧ d2.validated_at = some 5 := by
  refine ⟨by decide, ?_⟩
  obtain ⟨d2, hok, hst, hva, -⟩ :=
    (c2_transition_state_machine
      ⟨"doc1", "t1", "application/pdf", 10, DocumentStatus.UPLOADED, false,
        some 1, none, none, none, none⟩ DocumentStatus.VALIDATED 5).2
      (by decide) (by decide)
  exact ⟨d2, hok, hst, by simp [hva]⟩

/-- Claim C3: legal-hold integrity. For a held document every attempt to
transition to DELETED returns an error (so status and `deleted_at` stay
as they are), and when the deletion is otherwise allowed by the state
machine the error is precisely `LegalHoldViolation`. -/
theorem c3_legal_hold_blocks_delete (d : Document) (now : Nat)
    (h : d.legal_hold = true) :
    (∃ e, transitionTo d DocumentStatus.DELETED now = .error e) ∧
    (canTransitionTo d DocumentStatus.DELETED = true →
      transitionTo d DocumentStatus.DELETED now =
        .error (.legalHoldViolation d.id)) := by
  by_cases hc : canTransitionTo d DocumentStatus.DELETED
  · refine ⟨⟨.legalHoldViolation d.id, ?_⟩, fun _ => ?_⟩ <;>
      simp [transitionTo, hc, h]
  · refine ⟨⟨.illegalStateTransition d.status DocumentStatus.DELETED, ?_⟩, fun hcon => ?_⟩
    · simp [transitionTo, hc]
    · exact absurd hcon (by simpa using hc)

/-- Witness for C3 at a concrete input: a held ARCHIVED document, whose
deletion the state machine otherwise allows, is blocked with the
legal-hold error. -/
theorem c3_legal_hold_blocks_delete_witness :
    (⟨"doc9", "t1", "application/pdf", 10, DocumentStatus.ARCHIVED, true,
        some 1, none, none, some 2, none⟩ : Document).legal_hold = true ∧
    canTransitionTo
        ⟨"doc9", "t1", "application/pdf", 10, DocumentStatus.ARCHIVED, true,
          some 1, none, none, some 2, none⟩ DocumentStatus.DELETED = true ∧
    transitionTo
        ⟨"doc9", "t1", "application/pdf", 10, DocumentStatus.ARCHIVED, true,
          some 1, none, none, some 2, none⟩ DocumentStatus.DELETED 7 =
      .error (.legalHoldViolation "doc9") := by
  refine ⟨by decide, by decide, ?_⟩
  exact (c3_legal_hold_blocks_delete
    ⟨"doc9", "t1", "application/pdf", 10, DocumentStatus.ARCHIVED, true,
      some 1, none, none, some 2, none⟩ 7 (by decide)).2 (by decide)

/-- Claim C7: zero-hit honest refusal. With an empty retrieval result
the engine returns the response directly, with no citations, confidence
0.9, and the no-results message; the result does not depend on the
generation continuation (no prompt is built, no LLM is called), the
Arabic message is used exactly for detected language `ar`, the English
one otherwise. -/
theorem c7_zero_hit_refusal (language : String)
    (generate gen2 : List RetrievedChunk → RAGResponse) :
    ragEngineQuery [] language generate =
      { answer := getNoResultsMessage language
        citations := []
        confidence := 9/10
        answer_type := "direct"
        language := language } ∧
    ragEngineQuery [] language generate = ragEngineQuery [] language gen2 ∧
    getNoResultsMessage "ar" =
      "لم أتمكن من العثور على معلومات ذات صلة في الوثائق المتاحة." ∧
    (∀ l, l ≠ "ar" → getNoResultsMessage l =
      "I could not find relevant information in the available documents.") := by
  refine ⟨rfl, rfl, rfl, fun l hl => ?_⟩
  simp [getNoResultsMessage, hl]

/-- Witness for C7 at a concrete input: English fallback for a detected
language that is not `ar`. -/
theorem c7_zero_hit_refusal_witness :
    ("en" : String) ≠ "ar" ∧
    getNoResultsMessage "en" =
      "I could not find relevant information in the available documents." :=
  ⟨by decide,
   (c7_zero_hit_refusal "en"
      (fun _ => { answer := "", citations := [], confidence := 0,
                  answer_type := "", language := "" })
      (fun _ => { answer := "", citations := [], confidence := 0,
                  answer_type := "", language := "" })).2.2.2 "en"
     (by decide)⟩

/-- Helper: the allowed-type check is membership in the six MIME
types. -/
theorem is_allowed_content_type_iff (ct2 : String) :
    is_allowed_content_type ct2 = true ↔
      ct2 ∈ ["application/pdf", "image/png", "image/jpeg",
             "audio/mpeg", "audio/wav", "video/mp4"] := by
  constructor
  · intro h
    simp only [is_allowed_content_type, ALLOWED_MIME_TYPES, List.lookup] at h
    repeat' split at h
    all_goals simp_all
  · intro h
    fin_cases h <;> rfl

/-- Claim C8: upload validation. The upload rejects with
`UNSUPPORTED_MEDIA_TYPE` exactly when the content type is outside the
six allowed MIME types, rejects with `FILE_TOO_LARGE` exactly when the
type is allowed and the byte length exceeds its limit, every rejection
leaves the observable state untouched (no blob, no document row, no
`document.uploaded` event), and the per-type limits are 100 MiB for
pdf, 50 MiB for images, 500 MiB for audio and 2 GiB for video. -/
theorem c8_upload_validation (st : IngestState)
    (tenant user fn ct : String) (data : List (Fin 256))
    (docId key : String) (now : Nat) :
    ((upload st tenant user fn ct data docId key now).2 =
        .error (.unsupportedMediaType ct) ↔
      is_allowed_content_type ct = false) ∧
    ((∃ n m, (upload st tenant user fn ct data docId key now).2 =
        .error (.fileTooLarge n m)) ↔
      is_allowed_content_type ct = true ∧ data.length > get_max_size_bytes ct) ∧
    (∀ e, (upload st tenant user fn ct data docId key now).2 = .error e →
      (upload st tenant user fn ct data docId key now).1 = st) ∧
    (get_max_size_bytes "application/pdf" = 100 * 1024 * 1024 ∧
     get_max_size_bytes "image/png" = 50 * 1024 * 1024 ∧
     get_max_size_bytes "image/jpeg" = 50 * 1024 * 1024 ∧
     get_max_size_bytes "audio/mpeg" = 500 * 1024 * 1024 ∧
     get_max_size_bytes "audio/wav" = 500 * 1024 * 1024 ∧
     get_max_size_bytes "video/mp4" = 2048 * 1024 * 1024) ∧
    (∀ ct2, is_allowed_content_type ct2 = true ↔
      ct2 ∈ ["application/pdf", "image/png", "image/jpeg",
             "audio/mpeg", "audio/wav", "video/mp4"]) := by
  by_cases h1 : is_allowed_content_type ct
  · by_cases h2 : data.length > get_max_size_bytes ct
    · refine ⟨?_, ?_, ?_, by decide, ?_⟩
      · simp [upload, h1, h2]
      · simp [upload, h1, h2]
      · intro e _; simp [upload, h1, h2]
      · exact is_allowed_content_type_iff
    · refine ⟨?_, ?_, ?_, by decide, ?_⟩
      · simp [upload, h1, h2]
      · simp [upload, h1, h2]
      · intro e he; simp [upload, h1, h2] at he
      · exact is_allowed_content_type_iff
  · refine ⟨?_, ?_, ?_, by decide, ?_⟩
    · simp [upload, h1]
    · simp [upload, h1]
    · intro e _; simp [upload, h1]
    · exact is_allowed_content_type_iff

/-- Witness for C8 at concrete inputs: a rejected text upload leaves the
state unchanged. -/
theorem c8_upload_validation_witness :
    (upload ⟨[], [], []⟩ "t1" "u1" "a.txt" "text/plain" [0] "doc1" "k1" 3).2 =
      .error (.unsupportedMediaType "text/plain") ∧
    (upload ⟨[], [], []⟩ "t1" "u1" "a.txt" "text/plain" [0] "doc1" "k1" 3).1 =
      ⟨[], [], []⟩ := by
  have h := c8_upload_validation ⟨[], [], []⟩ "t1" "u1" "a.txt" "text/plain"
    [0] "doc1" "k1" 3
  have h1 : (upload ⟨[], [], []⟩ "t1" "u1" "a.txt" "text/plain" [0] "doc1" "k1" 3).2 =
      .error (.unsupportedMediaType "text/plain") := h.1.mpr (by decide)
  exact ⟨h1, h.2.2.1 _ h1⟩

/-- Claim C10 counterexample: the claimed point id shape
`tenant_id ++ _ ++ chunk_id` does not match the code, which inserts the
document id: indexing chunk `c` of document `d` for tenant `t` yields
point id `t_d_c`, not `t_c`. -/
theorem c10_point_id_counterexample :
    (indexChunks "t" "d" [⟨"c", "x", "en"⟩]).map (fun p => p.id) = ["t_d_c"] ∧
    ("t_d_c" : String) ≠ "t" ++ "_" ++ "c" := by
  constructor
  · rfl
  · decide

/-- Helper: two lists free of a separator followed by the separator and
a tail determine each other. -/
theorem sep_split_unique (sep : Char) :
    ∀ (xs ys r1 r2 : List Char), (∀ a ∈ xs, a ≠ sep) → (∀ a ∈ ys, a ≠ sep) →
      xs ++ sep :: r1 = ys ++ sep :: r2 → xs = ys ∧ r1 = r2 := by
  intro xs
  induction xs with
  | nil =>
    intro ys r1 r2 _ hy h
    cases ys with
    | nil => simpa using h
    | cons y ys2 =>
      simp at h
      exact absurd h.1.symm (hy y (by simp))
  | cons x xs2 ih =>
    intro ys r1 r2 hx hy h
    cases ys with
    | nil =>
      simp at h
      exact absurd h.1 (hx x (by simp))
    | cons y ys2 =>
      simp at h
      obtain ⟨rfl, h2⟩ := h
      obtain ⟨e1, e2⟩ := ih ys2 r1 r2 (fun a ha => hx a (by simp [ha]))
        (fun a ha => hy a (by simp [ha])) h2
      exact ⟨by simp [e1], e2⟩

/-- Claim C10, amended: every upserted point id is
`{tenant_id}_{document_id}_{chunk_id}`; point ids are injective in the
chunk id for a fixed tenant and document, and injective in the tenant
for underscore-free tenant ids (UUID strings contain no underscore). -/
theorem c10_point_id_composition (tenant doc : String) (chunks : List ChunkIn) :
    (∀ p ∈ indexChunks tenant doc chunks, ∃ c ∈ chunks,
        p.id = composePointId tenant doc c.chunk_id) ∧
    (∀ c1 c2 : String, c1 ≠ c2 →
        composePointId tenant doc c1 ≠ composePointId tenant doc c2) ∧
    (∀ t1 t2 d1 d2 c1 c2 : String,
        (∀ a ∈ t1.data, a ≠ '_') → (∀ a ∈ t2.data, a ≠ '_') → t1 ≠ t2 →
        composePointId t1 d1 c1 ≠ composePointId t2 d2 c2) := by
  refine ⟨?_, ?_, ?_⟩
  · intro p hp
    simp [indexChunks] at hp
    obtain ⟨c, hc, rfl⟩ := hp
    exact ⟨c, hc, rfl⟩
  · intro c1 c2 hne heq
    apply hne
    have hd : (composePointId tenant doc c1).data = (composePointId tenant doc c2).data := by
      rw [heq]
    simp only [composePointId, String.data_append] at hd
    exact String.ext (List.append_cancel_left hd)
  · intro t1 t2 d1 d2 c1 c2 h1 h2 hne heq
    apply hne
    have hd : (composePointId t1 d1 c1).data = (composePointId t2 d2 c2).data := by
      rw [heq]
    simp only [composePointId, String.data_append, List.append_assoc,
      List.singleton_append, List.cons_append, List.nil_append] at hd
    exact String.ext (sep_split_unique '_' t1.data t2.data _ _ h1 h2 hd).1

/-- Witness for C10 at concrete inputs: distinct chunk ids of one
document, and distinct underscore-free tenants, give distinct point
ids. -/
theorem c10_point_id_composition_witness :
    composePointId "t1" "d" "c1" ≠ composePointId "t1" "d" "c2" ∧
    composePointId "ta" "d1" "c" ≠ composePointId "tb" "d2" "c" := by
  constructor
  · exact (c10_point_id_composition "t1" "d" []).2.1 "c1" "c2" (by decide)
  · exact (c10_point_id_composition "ta" "d1" []).2.2 "ta" "tb" "d1" "d2" "c" "c"
      (by decide) (by decide) (by decide)

/-- Helper: membership in a search result implies membership in the
store and satisfaction of the filter. -/
theorem mem_qdrantSearch {points : List QdrantPoint} {conds : List FieldCondition}
    {minScore : ℚ} {limit : Nat} {p : QdrantPoint}
    (hp : p ∈ qdrantSearch points conds minScore limit) :
    p ∈ points ∧ matchesConditions conds p = true := by
  have h1 := List.take_subset _ _ hp
  rw [List.mem_filter] at h1
  exact ⟨h1.1, (Bool.and_eq_true _ _ |>.mp h1.2).1⟩

/-- Helper: a satisfied filter satisfies each of its conditions. -/
theorem matchesConditions_elem {conds : List FieldCondition} {p : QdrantPoint}
    {c : FieldCondition} (hm : matchesConditions conds p = true) (hc : c ∈ conds) :
    payloadGet p c.key = some c.value := by
  rw [matchesConditions, List.all_eq_true] at hm
  simpa using hm c hc

/-- Claim C1: tenant isolation of search. Both filter builders put the
condition `tenant_id == T` in the `must` list on every path (it is the
unconditional first element), and therefore every chunk returned by the
rag-service retriever and every hit returned by the retrieval-service
search comes from a stored point whose payload `tenant_id` equals the
requesting tenant. -/
theorem c1_tenant_isolation (points : List QdrantPoint) (tenant language : String)
    (documentFilter : Option String) (langOpt : Option String)
    (minScore : ℚ) (limit : Nat) :
    ({ key := "tenant_id", value := tenant } : FieldCondition) ∈
        retrieveMustConditions tenant language documentFilter ∧
    ({ key := "tenant_id", value := tenant } : FieldCondition) ∈
        searchMustConditions tenant langOpt ∧
    (∀ chunk ∈ hybridRetrieve points tenant language documentFilter minScore limit,
        ∃ p ∈ points, chunk = toRetrievedChunk p ∧
          payloadGet p "tenant_id" = some tenant) ∧
    (∀ p ∈ qdrantSearch points (searchMustConditions tenant langOpt) minScore limit,
        p ∈ points ∧ payloadGet p "tenant_id" = some tenant) := by
  have hmem1 : ({ key := "tenant_id", value := tenant } : FieldCondition) ∈
      retrieveMustConditions tenant language documentFilter := by
    simp [retrieveMustConditions]
  have hmem2 : ({ key := "tenant_id", value := tenant } : FieldCondition) ∈
      searchMustConditions tenant langOpt := by
    simp [searchMustConditions]
  refine ⟨hmem1, hmem2, ?_, ?_⟩
  · intro chunk hc
    rw [hybridRetrieve, List.mem_map] at hc
    obtain ⟨p, hp, rfl⟩ := hc
    obtain ⟨hpts, hmatch⟩ := mem_qdrantSearch hp
    exact ⟨p, hpts, rfl, matchesConditions_elem hmatch hmem1⟩
  · intro p hp
    obtain ⟨hpts, hmatch⟩ := mem_qdrantSearch hp
    exact ⟨hpts, matchesConditions_elem hmatch hmem2⟩

/-- Witness for C1 at a concrete store: the one returned chunk of a
one-point store carries the requesting tenant in its payload. -/
theorem c1_tenant_isolation_witness :
    toRetrievedChunk
        ⟨"T1_d1_c1",
         [("tenant_id", "T1"), ("document_id", "d1"), ("chunk_id", "c1"),
          ("text", "x"), ("language", "en")], 1⟩ ∈
      hybridRetrieve
        [⟨"T1_d1_c1",
          [("tenant_id", "T1"), ("document_id", "d1"), ("chunk_id", "c1"),
           ("text", "x"), ("language", "en")], 1⟩] "T1" "" none 0 10 ∧
    ∃ p ∈ [(⟨"T1_d1_c1",
          [("tenant_id", "T1"), ("document_id", "d1"), ("chunk_id", "c1"),
           ("text", "x"), ("language", "en")], 1⟩ : QdrantPoint)],
      toRetrievedChunk
          ⟨"T1_d1_c1",
           [("tenant_id", "T1"), ("document_id", "d1"), ("chunk_id", "c1"),
            ("text", "x"), ("language", "en")], 1⟩ = toRetrievedChunk p ∧
        payloadGet p "tenant_id" = some "T1" := by
  refine ⟨by decide, ?_⟩
  exact (c1_tenant_isolation
      [⟨"T1_d1_c1",
        [("tenant_id", "T1"), ("document_id", "d1"), ("chunk_id", "c1"),
         ("text", "x"), ("language", "en")], 1⟩] "T1" "" none none 0 10).2.2.1
    _ (by decide)

/-- Claim C5 counterexample: a generated answer that contains a refusal
phrase but yields no citations gets confidence 0.3, not the 0.9 the
claim derives from refusal-first precedence (the code tests the empty
citation list first). The citation list is the one the answering path
extracts from this answer. -/
theorem c5_confidence_counterexample :
    isRefusal "cannot find".data = true ∧
    extractCitations "cannot find".data
        [⟨"c1".data, "d1".data, "t1".data, "en".data, 1, 1, 1, 0⟩] = [] ∧
    calculateConfidence "cannot find".data
        (extractCitations "cannot find".data
          [⟨"c1".data, "d1".data, "t1".data, "en".data, 1, 1, 1, 0⟩])
        [⟨"c1".data, "d1".data, "t1".data, "en".data, 1, 1, 1, 0⟩] = 3/10 ∧
    (3/10 : ℚ) ≠ 9/10 := by
  have h : extractCitations "cannot find".data
      [⟨"c1".data, "d1".data, "t1".data, "en".data, 1, 1, 1, 0⟩] = [] := by decide
  refine ⟨by decide, h, ?_, by norm_num⟩
  rw [h]
  simp [calculateConfidence]

/-- Claim C5, amended: the empty-citations check takes precedence over
the refusal-phrase check. With no citations the confidence is 0.3; with
citations a refusal phrase gives 0.9; otherwise the confidence is
`min(0.2 + 0.8 * |citations| / max(|context_chunks|, 1), 0.95)` rounded
to two decimals, and for a nonempty context the denominator is exactly
`|context_chunks|` as the claim states. -/
theorem c5_confidence_amended (answer : List Char) (citations : List Citation)
    (ctx : List RankedChunk) :
    (citations = [] → calculateConfidence answer citations ctx = 3/10) ∧
    (citations ≠ [] → isRefusal answer = true →
      calculateConfidence answer citations ctx = 9/10) ∧
    (citations ≠ [] → isRefusal answer = false →
      calculateConfidence answer citations ctx =
        pyRound2 (min ((citations.length : ℚ) / (max ctx.length 1 : ℚ) * (8/10)
          + 2/10) (95/100))) ∧
    (ctx ≠ [] → (max ctx.length 1 : ℚ) = (ctx.length : ℚ)) := by
  refine ⟨?_, ?_, ?_, ?_⟩
  · intro h
    simp [calculateConfidence, h]
  · intro h1 h2
    simp [calculateConfidence, h1, h2]
  · intro h1 h2
    simp [calculateConfidence, h1, h2]
  · intro h
    have h1 : 1 ≤ ctx.length := List.length_pos.mpr h
    exact max_eq_left (by exact_mod_cast h1)

/-- Witness for C5 at concrete inputs: one citation over a two-chunk
context without refusal gives the rounded coverage score 0.6. -/
theorem c5_confidence_amended_witness :
    ([⟨"c1".data, "d1".data, "x".data⟩] : List Citation) ≠ [] ∧
    isRefusal "the answer is [c1]".data = false ∧
    calculateConfidence "the answer is [c1]".data
        [⟨"c1".data, "d1".data, "x".data⟩]
        [⟨"c1".data, "d1".data, "t1".data, "en".data, 1, 1, 1, 0⟩,
         ⟨"c2".data, "d2".data, "t2".data, "en".data, 1, 1, 1, 1⟩] =
      pyRound2 (min
        ((([⟨"c1".data, "d1".data, "x".data⟩] : List Citation).length : ℚ) /
            (max ([⟨"c1".data, "d1".data, "t1".data, "en".data, 1, 1, 1, 0⟩,
                   ⟨"c2".data, "d2".data, "t2".data, "en".data, 1, 1, 1, 1⟩] :
                List RankedChunk).length 1 : ℚ) * (8/10) + 2/10) (95/100)) ∧
    calculateConfidence "the answer is [c1]".data
        [⟨"c1".data, "d1".data, "x".data⟩]
        [⟨"c1".data, "d1".data, "t1".data, "en".data, 1, 1, 1, 0⟩,
         ⟨"c2".data, "d2".data, "t2".data, "en".data, 1, 1, 1, 1⟩] = 6/10 := by
  have heq := (c5_confidence_amended "the answer is [c1]".data
      [⟨"c1".data, "d1".data, "x".data⟩]
      [⟨"c1".data, "d1".data, "t1".data, "en".data, 1, 1, 1, 0⟩,
       ⟨"c2".data, "d2".data, "t2".data, "en".data, 1, 1, 1, 1⟩]).2.2.1
    (by decide) (by decide)
  refine ⟨by decide, by decide, heq, ?_⟩
  rw [heq]
  norm_num
  norm_num [pyRound2, roundHalfEven]

/-- Helper: a successful chunk-map lookup returns a context chunk with
the looked-up id. -/
theorem chunkMapFind_eq_some {chunks : List RankedChunk} {cid : List Char}
    {c : RankedChunk} (h : chunkMapFind chunks cid = some c) :
    c ∈ chunks ∧ c.chunk_id = cid := by
  rw [chunkMapFind] at h
  have h1 := List.mem_of_find?_eq_some h
  have h2 := List.find?_some h
  rw [List.mem_reverse] at h1
  exact ⟨h1, by simpa using h2⟩

/-- Helper: a failed chunk-map lookup means the id is not a context
chunk id. -/
theorem chunkMapFind_eq_none {chunks : List RankedChunk} {cid : List Char}
    (h : chunkMapFind chunks cid = none) :
    cid ∉ chunks.map fun c => c.chunk_id := by
  rw [chunkMapFind, List.find?_eq_none] at h
  intro hmem
  rw [List.mem_map] at hmem
  obtain ⟨c, hc, hcid⟩ := hmem
  have := h c (List.mem_reverse.mpr hc)
  simp [hcid] at this

/-- Helper: the extraction loop emits, in order, the first occurrences
of the stripped bracket tokens that are context chunk ids. -/
theorem extractGo_map_chunk_id (chunks : List RankedChunk) :
    ∀ (ms seen : List (List Char)),
      (extractCitationsGo chunks ms seen).map (fun c => c.chunk_id) =
        keepFirsts seen ((ms.map pyStrip).filter
          fun t => decide (t ∈ chunks.map fun c => c.chunk_id)) := by
  intro ms
  induction ms with
  | nil => intro seen; rfl
  | cons m ms ih =>
    intro seen
    simp only [List.map_cons, List.filter_cons]
    cases hf : chunkMapFind chunks (pyStrip m) with
    | none =>
      have hnot := chunkMapFind_eq_none hf
      rw [extractCitationsGo]
      simp only [hf]
      simp [hnot, ih]
    | some c =>
      obtain ⟨hmem, hcid⟩ := chunkMapFind_eq_some hf
      have hin : pyStrip m ∈ chunks.map fun c => c.chunk_id :=
        List.mem_map.mpr ⟨c, hmem, hcid⟩
      rw [extractCitationsGo]
      simp only [hf]
      by_cases hs : pyStrip m ∈ seen
      · simp [hs, hin, keepFirsts, ih]
      · simp [hs, hin, keepFirsts, ih]

/-- Helper: every citation the loop emits carries the id of some context
chunk. -/
theorem extractGo_sound (chunks : List RankedChunk) :
    ∀ (ms seen : List (List Char)), ∀ cit ∈ extractCitationsGo chunks ms seen,
      ∃ c ∈ chunks, c.chunk_id = cit.chunk_id := by
  intro ms
  induction ms with
  | nil => intro seen cit h; simp [extractCitationsGo] at h
  | cons m ms ih =>
    intro seen cit h
    rw [extractCitationsGo] at h
    cases hf : chunkMapFind chunks (pyStrip m) with
    | none =>
      rw [hf] at h
      dsimp only at h
      exact ih seen cit h
    | some c =>
      rw [hf] at h
      dsimp only at h
      obtain ⟨hmem, hcid⟩ := chunkMapFind_eq_some hf
      by_cases hs : seen.contains (pyStrip m) = true
      · rw [if_pos hs] at h
        exact ih seen cit h
      · rw [if_neg hs] at h
        rcases List.mem_cons.mp h with rfl | h2
        · exact ⟨c, hmem, hcid⟩
        · exact ih _ cit h2

/-- Claim C4 counterexample: the bracketed token of the answer
`[ c1 ]` has literal content ` c1 `, which is not a chunk id of the
context, yet the extraction keeps it as a citation of chunk `c1`
because the code strips whitespace before comparing. -/
theorem c4_citation_literal_counterexample :
    bracketTokens "[ c1 ]".data = [" c1 ".data] ∧
    (extractCitations "[ c1 ]".data
        [⟨"c1".data, "d1".data, "t1".data, "en".data, 1, 1, 1, 0⟩]).map
      (fun c => c.chunk_id) = ["c1".data] ∧
    " c1 ".data ≠ "c1".data := by
  exact ⟨by decide, by decide, by decide⟩

/-- Claim C4, amended: every returned citation references a chunk id
present in the context chunks; the bracketed tokens are parsed in order
of appearance and a token is kept exactly when its whitespace-stripped
content equals a context chunk id, deduplicated preserving
first-appearance order. -/
theorem c4_citation_extraction (answer : List Char) (chunks : List RankedChunk) :
    (∀ cit ∈ extractCitations answer chunks,
        ∃ c ∈ chunks, c.chunk_id = cit.chunk_id) ∧
    (extractCitations answer chunks).map (fun c => c.chunk_id) =
      keepFirsts [] (((bracketTokens answer).map pyStrip).filter
        fun t => decide (t ∈ chunks.map fun c => c.chunk_id)) :=
  ⟨fun cit h => extractGo_sound chunks _ _ cit h,
   extractGo_map_chunk_id chunks _ _⟩

/-- Witness for C4 at concrete inputs: the citation extracted from a
two-token answer references the context chunk `c1`. -/
theorem c4_citation_extraction_witness :
    (⟨"c1".data, "d1".data, "t1".data⟩ : Citation) ∈
      extractCitations "see [c1] and [zz]".data
        [⟨"c1".data, "d1".data, "t1".data, "en".data, 1, 1, 1, 0⟩] ∧
    ∃ c ∈ [(⟨"c1".data, "d1".data, "t1".data, "en".data, 1, 1, 1, 0⟩ :
        RankedChunk)],
      c.chunk_id = (⟨"c1".data, "d1".data, "t1".data⟩ : Citation).chunk_id := by
  refine ⟨by decide, ?_⟩
  exact (c4_citation_extraction "see [c1] and [zz]".data
      [⟨"c1".data, "d1".data, "t1".data, "en".data, 1, 1, 1, 0⟩]).1 _ (by decide)

/-- Claim C6 is the idempotence `normalize(normalize(T, L), L) ==
normalize(T, L)` of the normalized text. The code violates it: for the
two-character Arabic input U+0649 U+0654 (alef maksura followed by the
combining hamza, a decomposed sequence NFC leaves alone because the pair
has no primary composite), one pass rewrites the base letter to U+064A
whose pairing with U+0654 NFC does compose, so the second pass yields
the single character U+0626. The spec states idempotence as a MUST
requirement, so this is recorded as a defect of the code. -/
theorem c6_normalize_not_idempotent :
    normalizeText [Char.ofNat 0x0649, Char.ofNat 0x0654] "ar" =
      [Char.ofNat 0x064A, Char.ofNat 0x0654] ∧
    normalizeText (normalizeText [Char.ofNat 0x0649, Char.ofNat 0x0654] "ar") "ar" =
      [Char.ofNat 0x0626] ∧
    normalizeText (normalizeText [Char.ofNat 0x0649, Char.ofNat 0x0654] "ar") "ar" ≠
      normalizeText [Char.ofNat 0x0649, Char.ofNat 0x0654] "ar" := by
  exact ⟨by decide, by decide, by decide⟩

/-- Helper: token estimates add up to at most the estimate of the total
length (sums of floors bound the floor of the sum). -/
theorem sum_estimate_le (ps : List (List Char)) :
    (ps.map estimateTokens).sum ≤ (ps.map List.length).sum / 4 := by
  induction ps with
  | nil => simp
  | cons p ps ih =>
    simp only [List.map_cons, List.sum_cons, estimateTokens]
    omega

/-- Helper: the sentence splitter never produces more characters than it
consumes; each separator eats at least one character, so the total part
length plus the part count stays within the input length plus one. -/
theorem splitSentencesGo_length :
    ∀ (fuel : Nat) (acc cs : List Char),
      ((splitSentencesGo fuel acc cs).map List.length).sum +
          (splitSentencesGo fuel acc cs).length ≤
        acc.length + cs.length + 1 := by
  intro fuel
  induction fuel with
  | zero =>
    intro acc cs
    cases cs <;> simp [splitSentencesGo]
  | succ fuel ih =>
    intro acc cs
    cases cs with
    | nil => simp [splitSentencesGo]
    | cons c rest =>
      simp only [splitSentencesGo]
      by_cases hcond : (pySpace c && (match acc with
                        | p :: _ => isSentEnd p
                        | [] => false)) = true
      · rw [if_pos hcond]
        have h1 := ih [] (rest.dropWhile fun x => pySpace x)
        have h2 := (List.dropWhile_sublist (l := rest) fun x => pySpace x).length_le
        simp only [List.map_cons, List.sum_cons, List.length_cons,
          List.length_reverse] at h1 ⊢
        simp only [List.length_nil] at h1
        omega
      · rw [if_neg hcond]
        have h1 := ih (c :: acc) rest
        simp only [List.length_cons] at h1 ⊢
        omega

/-- Helper: the sentence splitter always returns at least one part. -/
theorem splitSentencesGo_ne_nil :
    ∀ (fuel : Nat) (acc cs : List Char), splitSentencesGo fuel acc cs ≠ [] := by
  intro fuel
  induction fuel with
  | zero => intro acc cs; cases cs <;> simp [splitSentencesGo]
  | succ fuel ih =>
    intro acc cs
    cases cs with
    | nil => simp [splitSentencesGo]
    | cons c rest =>
      simp only [splitSentencesGo]
      by_cases hcond : (pySpace c && (match acc with
                        | p :: _ => isSentEnd p
                        | [] => false)) = true
      · rw [if_pos hcond]; simp
      · rw [if_neg hcond]; exact ih _ _

/-- Helper: length of a space-join of parts. -/
theorem joinSpace_length :
    ∀ (ps : List (List Char)), ps ≠ [] →
      (joinSpace ps).length + 1 = (ps.map List.length).sum + ps.length := by
  intro ps
  induction ps with
  | nil => intro h; exact absurd rfl h
  | cons p ps ih =>
    intro _
    cases ps with
    | nil => simp [joinSpace]
    | cons q qs =>
      have := ih (List.cons_ne_nil q qs)
      simp only [joinSpace, List.length_append, List.length_cons,
        List.map_cons, List.sum_cons] at this ⊢
      omega

/-- Helper: when the running token count never exceeds the chunk size,
the sentence loop of `_semantic_chunk` emits nothing and accumulates all
sentences into the current chunk. -/
theorem semanticLoop_no_emit (chunk_size overlap : Nat) (page : Option Nat)
    (idx : Nat) :
    ∀ (ss current : List (List Char)) (curTok : Nat),
      curTok = (current.map estimateTokens).sum →
      curTok + (ss.map estimateTokens).sum ≤ chunk_size →
      semanticLoop chunk_size overlap page idx ss current curTok =
        ([], current ++ ss) := by
  intro ss
  induction ss with
  | nil =>
    intro current curTok _ _
    simp [semanticLoop]
  | cons s ss ih =>
    intro current curTok h1 h2
    rw [semanticLoop]
    simp only [List.map_cons, List.sum_cons] at h2
    have hle : ¬(chunk_size < curTok + estimateTokens s) := by omega
    have hcond : (decide (curTok + estimateTokens s > chunk_size) &&
        !current.isEmpty) = false := by
      simp [hle]
    rw [if_neg (by simp [hcond])]
    have := ih (current ++ [s]) (curTok + estimateTokens s)
      (by simp [h1]) (by omega)
    rw [this]
    simp

/-- Claim C9 counterexample: with the service defaults
(`min_chunk_size = 100`, `default_chunk_size = 512`,
`overlap_tokens = 50`), the non-empty input `hi`, whose whole estimated
token count is below `min_size`, produces zero chunks, not the single
short chunk the claim describes: the final-chunk guard drops every
trailing chunk below `min_size` with no whole-document exception. -/
theorem c9_small_doc_counterexample :
    "hi".data ≠ [] ∧ estimateTokens "hi".data < 100 ∧
    semanticChunk 100 "hi".data 512 50 none 0 = [] := by
  exact ⟨by decide, by decide, by decide⟩

/-- Claim C9, amended: a trailing chunk whose estimated token count is
below `min_size` is dropped unconditionally; in particular (whenever
`min_size ≤ chunk_size`, as in the service defaults 100 and 512) every
input whose whole estimated token count is below `min_size` — including
every non-empty text shorter than `4 * min_size` characters — yields
zero chunks rather than one. -/
theorem c9_small_doc_dropped (text : List Char)
    (min_size chunk_size overlap : Nat) (page : Option Nat) (idx : Nat)
    (hms : min_size ≤ chunk_size) (hsmall : estimateTokens text < min_size) :
    semanticChunk min_size text chunk_size overlap page idx = [] := by
  have hlen := splitSentencesGo_length text.length [] text
  have hne : splitSentences text ≠ [] := splitSentencesGo_ne_nil _ _ _
  have hcount : 1 ≤ (splitSentences text).length :=
    List.length_pos.mpr hne
  rw [splitSentences] at hne hcount
  simp only [List.length_nil, Nat.zero_add] at hlen
  have hsumlen : ((splitSentencesGo text.length [] text).map List.length).sum ≤
      text.length := by omega
  have hestsum := sum_estimate_le (splitSentencesGo text.length [] text)
  rw [estimateTokens] at hsmall
  have hloop := semanticLoop_no_emit chunk_size overlap page idx
    (splitSentencesGo text.length [] text) [] 0 (by simp) (by omega)
  have hjoin := joinSpace_length (splitSentencesGo text.length [] text) hne
  have hjointok :
      estimateTokens (joinSpace (splitSentencesGo text.length [] text)) <
        min_size := by
    rw [estimateTokens]
    omega
  rw [semanticChunk, splitSentences]
  rw [hloop]
  simp [hjointok, Nat.not_le.mpr hjointok]

/-- Witness for C9 at a concrete input: the short text `ok.` with the
service defaults yields zero chunks. -/
theorem c9_small_doc_dropped_witness :
    100 ≤ 512 ∧ estimateTokens "ok.".data < 100 ∧
    semanticChunk 100 "ok.".data 512 50 none 0 = [] :=
  ⟨by decide, by decide,
   c9_small_doc_dropped "ok.".data 100 512 50 none 0 (by decide) (by decide)⟩

end Waqedi
